import Mathlib

/-!
Verification of the pymice-web frontend core: ROI geometry (`utils/canvas.ts`),
the rearing event detector (`pages/EthologicalTab.tsx`, `handleRunAnalysis`),
the batch tracking orchestrator and its poll loops (`pages/TrackingTab.tsx`),
and the result-document merge (`pages/EthologicalTab.tsx`, `rearingData`).
JavaScript numbers are modelled as exact rationals (ℚ); JavaScript objects
holding result documents are modelled as ordered association lists of fields.
-/

/-! ## ROI geometry, from `frontend/src/utils/canvas.ts` and `types/index.ts` -/

/-- The ROI tagged union of `types/index.ts`: `Rectangle`, `Circle`, `Polygon`,
each extending `BaseROI` with its `center_x`, `center_y` fields. -/
inductive ROI where
  | Rectangle (center_x center_y width height : ℚ)
  | Circle (center_x center_y radius : ℚ)
  | Polygon (center_x center_y : ℚ) (vertices : List (ℚ × ℚ))
deriving DecidableEq

/-- `isPointInRectangle` from `canvas.ts`: inclusive bounds test
`x >= left && x <= right && y >= top && y <= bottom` with
`left = center_x - width/2` and so on. -/
def isPointInRectangle (x y cx cy w h : ℚ) : Bool :=
  decide (cx - w / 2 ≤ x ∧ x ≤ cx + w / 2 ∧ cy - h / 2 ≤ y ∧ y ≤ cy + h / 2)

/-- `isPointInCircle` from `canvas.ts`. The source computes
`Math.sqrt(dx*dx + dy*dy) <= roi.radius`; over the reals that inequality holds
exactly when `0 ≤ radius` and `dx*dx + dy*dy ≤ radius*radius`, which is the
square-free form used here so the definition stays inside ℚ. -/
def isPointInCircle (x y cx cy r : ℚ) : Bool :=
  decide (0 ≤ r ∧ (x - cx) * (x - cx) + (y - cy) * (y - cy) ≤ r * r)

/-- One iteration of the `isPointInPolygon` loop pairs the current vertex
`e.1 = vertices[i]` with the previous vertex `e.2 = vertices[j]`, `j = i-1`
cyclically.  This is the first conjunct `(yi > y) !== (yj > y)`. -/
def edgeCrosses (y : ℚ) (e : (ℚ × ℚ) × (ℚ × ℚ)) : Bool :=
  decide (e.1.2 > y) != decide (e.2.2 > y)

/-- The full per-edge test of `isPointInPolygon`:
`((yi > y) !== (yj > y)) && (x < (xj - xi) * (y - yi) / (yj - yi) + xi)`.
When the first conjunct holds, `yj ≠ yi`, so the ℚ division is the real one;
when it fails the `&&` short-circuits exactly as in the source. -/
def edgeTest (x y : ℚ) (e : (ℚ × ℚ) × (ℚ × ℚ)) : Bool :=
  edgeCrosses y e && decide (x < (e.2.1 - e.1.1) * (y - e.1.2) / (e.2.2 - e.1.2) + e.1.1)

/-- The edge list traversed by the loop
`for (i = 0, j = n - 1; i < n; j = i++)`: pairs
`(vertices[0], vertices[n-1]), (vertices[1], vertices[0]), …`. -/
def polyEdges (vs : List (ℚ × ℚ)) : List ((ℚ × ℚ) × (ℚ × ℚ)) :=
  vs.zip (vs.rotate (vs.length - 1))

/-- `isPointInPolygon` from `canvas.ts`: the even-odd ray-casting rule,
`inside` toggled once per crossing edge. -/
def isPointInPolygon (x y : ℚ) (vs : List (ℚ × ℚ)) : Bool :=
  (polyEdges vs).foldl (fun inside e => if edgeTest x y e then !inside else inside) false

/-- `isPointInROI` from `canvas.ts`: dispatch on `roi_type`. -/
def isPointInROI (x y : ℚ) (roi : ROI) : Bool :=
  match roi with
  | .Rectangle cx cy w h => isPointInRectangle x y cx cy w h
  | .Circle cx cy r => isPointInCircle x y cx cy r
  | .Polygon _ _ vs => isPointInPolygon x y vs

/-- The polygon center computed by `prepareROIs` in `TrackingTab.tsx`
(lines 239-268): the arithmetic mean of the vertex list. -/
def polygonCenter (vs : List (ℚ × ℚ)) : ℚ × ℚ :=
  ((vs.map Prod.fst).sum / vs.length, (vs.map Prod.snd).sum / vs.length)

/-! ## Rearing event detector, from `EthologicalTab.tsx` lines 339-430 -/

/-- A pose keypoint with fields `x`, `y`, `conf`. -/
structure Keypoint where
  x : ℚ
  y : ℚ
  conf : ℚ
deriving DecidableEq

/-- The fields of one tracking frame read by the rearing loop:
`frame_number`, the centroid, and the optional keypoint array
(`none` models an absent `keypoints` property). -/
structure TrackFrame where
  frame_number : ℤ
  centroid_x : ℚ
  centroid_y : ℚ
  keypoints : Option (List Keypoint)
deriving DecidableEq

/-- One entry of `rearingROIs` in `EthologicalTab.tsx`: a named circle. -/
structure RearingROI where
  name : String
  centerX : ℚ
  centerY : ℚ
  radius : ℚ
deriving DecidableEq

/-- The `rearingAnalysisType` values actually usable by the loop. -/
inductive AnalysisType where
  | segmentation
  | pose
deriving DecidableEq

/-- The distance test the rearing loop performs against a circular ROI:
`Math.sqrt(dx*dx + dy*dy) <= roi.radius`, in the same square-free form as
`isPointInCircle`. -/
def insideCircleROI (roi : RearingROI) (px py : ℚ) : Bool :=
  decide (0 ≤ roi.radius ∧
    (px - roi.centerX) * (px - roi.centerX) + (py - roi.centerY) * (py - roi.centerY)
      ≤ roi.radius * roi.radius)

/-- The pose branch (lines 385-413): iterate over
`selectedKeypointsForRearing`; for each keypoint present with `conf > 0.5`,
test it against the upper-edge ROI; `isRearing` ends up true exactly when some
selected confident keypoint lies inside. -/
def poseRearing (selected : List ℕ) (upper : RearingROI) (kps : List Keypoint) : Bool :=
  selected.any (fun i =>
    match kps.get? i with
    | some kp => decide (kp.conf > 1 / 2) && insideCircleROI upper kp.x kp.y
    | none => false)

/-- The per-frame `isRearing` computation (lines 364-413): segmentation mode
tests the centroid; pose mode tests selected keypoints when the frame has a
`keypoints` property, and otherwise leaves `isRearing` at its initial `false`. -/
def frameIsRearing (ty : AnalysisType) (selected : List ℕ) (upper : RearingROI)
    (f : TrackFrame) : Bool :=
  match ty with
  | .segmentation => insideCircleROI upper f.centroid_x f.centroid_y
  | .pose =>
    match f.keypoints with
    | some kps => poseRearing selected upper kps
    | none => false

/-- An entry of `detectedEvents`, with fields `start_frame`, `end_frame` and
`duration_frames`. -/
structure RearingEvent where
  start_frame : ℤ
  end_frame : ℤ
  duration_frames : ℤ
deriving DecidableEq

/-- The mutable loop state of the rearing loop: `rearingCount`,
`currentRearingState`, `rearingStartFrame` and `detectedEvents`. -/
structure RearingState where
  rearingCount : ℕ
  currentRearingState : Bool
  rearingStartFrame : ℤ
  detectedEvents : List RearingEvent
deriving DecidableEq

/-- Initial loop state (lines 342-345): count 0, not rearing, start frame -1,
no events. -/
def initialRearingState : RearingState := ⟨0, false, -1, []⟩

/-- The state transition of lines 415-430: entering increments the count and
records the start frame; leaving closes and appends the event whose end frame
is the current `frame_number` and whose duration is end minus start;
otherwise the state is unchanged. -/
def processFrame (ty : AnalysisType) (selected : List ℕ) (upper : RearingROI)
    (s : RearingState) (f : TrackFrame) : RearingState :=
  let isRearing := frameIsRearing ty selected upper f
  let closed : RearingEvent :=
    ⟨s.rearingStartFrame, f.frame_number, f.frame_number - s.rearingStartFrame⟩
  if isRearing && !s.currentRearingState then
    { s with rearingCount := s.rearingCount + 1,
             rearingStartFrame := f.frame_number,
             currentRearingState := true }
  else if !isRearing && s.currentRearingState then
    { s with detectedEvents := s.detectedEvents ++ [closed],
             currentRearingState := false }
  else s

/-- The whole detector run: fold the per-frame transition over the frame list
in order, starting from the initial state. -/
def runRearing (ty : AnalysisType) (selected : List ℕ) (upper : RearingROI)
    (frames : List TrackFrame) : RearingState :=
  frames.foldl (processFrame ty selected upper) initialRearingState

/-- The `parseFloat(q.toFixed(2))` rounding used by the statistics block,
modelled as exact rounding of the rational to 2 decimal places. -/
def round2 (q : ℚ) : ℚ := (round (q * 100) : ℤ) / 100

/-- The `statistics` object built at `EthologicalTab.tsx` lines 1270-1276. -/
structure RearingStatistics where
  total_events : ℕ
  total_duration_frames : ℤ
  total_duration_seconds : ℚ
  average_duration_frames : ℚ
  average_duration_seconds : ℚ
deriving DecidableEq

/-- The statistics computation of lines 1252-1276: total duration, and the
average guarded by `rearingEvents.length > 0 ? … : 0`. -/
def rearingStatistics (fps : ℚ) (events : List RearingEvent) : RearingStatistics :=
  let totalFrames : ℤ := (events.map RearingEvent.duration_frames).sum
  let totalDurationSec : ℚ := (totalFrames : ℚ) / fps
  let avgDurationFrames : ℚ :=
    if 0 < events.length then (totalFrames : ℚ) / (events.length : ℚ) else 0
  ⟨events.length, totalFrames, round2 totalDurationSec, round2 avgDurationFrames,
    round2 (avgDurationFrames / fps)⟩

/-! ## Result-document merge, from `EthologicalTab.tsx` lines 1258-1278.
A result document is modelled as its ordered list of top-level fields. -/

/-- JavaScript object spread with one added key, as in the
`rearingData` literal built by spreading `trackingData` and then setting
`rearing_analysis`: if `k` is already a field it is replaced in place,
otherwise the new field is appended at the end. -/
def jsSpreadSet {V : Type} (doc : List (String × V)) (k : String) (v : V) :
    List (String × V) :=
  if doc.any (fun p => p.1 == k) then
    doc.map (fun p => if p.1 == k then (k, v) else p)
  else doc ++ [(k, v)]

/-- Reading a top-level field of a document. -/
def getField {V : Type} (doc : List (String × V)) (k : String) : Option V :=
  (doc.find? (fun p => p.1 == k)).map Prod.snd

/-! ## Batch orchestrator, from `TrackingTab.tsx` `handleBatchTracking`
(lines 335-453) and `pollTrackingCompletion` (lines 270-317).
The asynchronous environment of one queue item is summarised by a
`JobOutcome`: which of the awaited steps failed or succeeded, and where the
cooperative `stopBatchRequestedRef` flag was observed set. -/

/-- Final status of a queue item; mirrors the `VideoItem.status` union of
`types/index.ts`, which has no `stopped` member. -/
inductive ItemStatus where
  | pending
  | uploading
  | tracking
  | completed
  | error
deriving DecidableEq

/-- The per-item fields touched by `updateVideoStatus`. -/
structure BatchItem (V : Type) where
  status : ItemStatus
  error : Option String
  result : Option V
deriving DecidableEq

/-- A queued item before the loop reaches it. -/
def pendingItem (V : Type) : BatchItem V := ⟨.pending, none, none⟩

/-- The observable outcome of processing one queue item:
`stopAtLoopTop` is the stop flag seen at the top of the `for` loop (line 356);
`uploadFailure` and `startFailure` are the two `throw new Error(...)` sites
(lines 376, 396); `pollReject msg` is `pollTrackingCompletion` rejecting with
message `msg` (which is `"Stopped by user"` when the flag was seen inside a
poll tick, line 278); `pollResolve v stopAfterPoll` is a resolved poll,
with the flag state at the post-poll check of line 408. -/
inductive JobOutcome (V : Type) where
  | stopAtLoopTop
  | uploadFailure
  | startFailure
  | pollReject (msg : String)
  | pollResolve (result : V) (stopAfterPoll : Bool)

/-- Result of a whole batch run: the final item records in queue order and
the aggregated `results` array. -/
structure BatchRun (V : Type) where
  items : List (BatchItem V)
  results : List V
deriving DecidableEq

/-- The `handleBatchTracking` loop (lines 354-442), one recursion step per
queue item. The `catch` block distinguishes a user stop only by the error
message: `errorMessage === 'Stopped by user'` marks the item
`updateVideoStatus(i, 'error', undefined, 'Stopped by user', 0)` and breaks;
any other message marks the item `error` and continues with the next item.
A resolved poll followed by an observed stop flag breaks before pushing the
result, leaving the item in its last set status `tracking`. Items after a
break keep their initial `pending` record. -/
def handleBatchTracking {V : Type} : List (JobOutcome V) → BatchRun V
  | [] => ⟨[], []⟩
  | o :: rest =>
    match o with
    | .stopAtLoopTop => ⟨pendingItem V :: rest.map (fun _ => pendingItem V), []⟩
    | .uploadFailure =>
      let r := handleBatchTracking rest
      ⟨⟨.error, some "Failed to upload video", none⟩ :: r.items, r.results⟩
    | .startFailure =>
      let r := handleBatchTracking rest
      ⟨⟨.error, some "Failed to start tracking", none⟩ :: r.items, r.results⟩
    | .pollReject msg =>
      if msg = "Stopped by user" then
        ⟨⟨.error, some msg, none⟩ :: rest.map (fun _ => pendingItem V), []⟩
      else
        let r := handleBatchTracking rest
        ⟨⟨.error, some msg, none⟩ :: r.items, r.results⟩
    | .pollResolve v stopAfter =>
      if stopAfter then
        ⟨⟨.tracking, none, none⟩ :: rest.map (fun _ => pendingItem V), []⟩
      else
        let r := handleBatchTracking rest
        ⟨⟨.completed, none, some v⟩ :: r.items, v :: r.results⟩

/-- `successCount` of line 450: the length of the aggregated results. -/
def batchSuccessCount {V : Type} (run : BatchRun V) : ℕ := run.results.length

/-- `failedCount` of line 451: `videoFiles.length - successCount`. -/
def batchFailedCount {V : Type} (queueLength : ℕ) (run : BatchRun V) : ℕ :=
  queueLength - run.results.length

/-- One tick of the interval in `pollTrackingCompletion` (lines 273-315):
the stop flag seen set, a thrown `getProgress` (network failure), a response
without usable data, or a progress payload. `result` carries the value
`downloadResults` would produce, used only when the status is `completed`. -/
inductive PollTick (V : Type) where
  | stopRequested
  | netFailure (msg : String)
  | noData
  | progressUpdate (status : String) (error : Option String) (result : V)

/-- How the promise returned by `pollTrackingCompletion` ends. -/
inductive PollOutcome (V : Type) where
  | resolved (v : V)
  | rejected (msg : String)
  | stillPolling
deriving DecidableEq

/-- JavaScript `e || dflt` on an optional string: the empty string is falsy. -/
def jsOrElse (e : Option String) (dflt : String) : String :=
  match e with
  | some s => if s = "" then dflt else s
  | none => dflt

/-- The batch poll loop `pollTrackingCompletion` (lines 270-317) as a function
of the tick sequence. A seen stop flag rejects with `"Stopped by user"`; a
thrown `getProgress` lands in the `catch` which clears the interval and
rejects with that error; `completed` resolves with the downloaded result;
`error` or `stopped` rejects with `progressData.error || 'Tracking failed'`;
anything else polls on. -/
def pollTrackingCompletion {V : Type} : List (PollTick V) → PollOutcome V
  | [] => .stillPolling
  | t :: rest =>
    match t with
    | .stopRequested => .rejected "Stopped by user"
    | .netFailure msg => .rejected msg
    | .noData => pollTrackingCompletion rest
    | .progressUpdate status err v =>
      if status = "completed" then .resolved v
      else if status = "error" ∨ status = "stopped" then
        .rejected (jsOrElse err "Tracking failed")
      else pollTrackingCompletion rest

/-- One tick of the single-video poll interval in `handleStartTracking`
(lines 829-862). -/
inductive SingleTick where
  | netFailure (msg : String)
  | noData
  | progressUpdate (status : String) (error : Option String)

/-- How the single-video poll interval ends. -/
inductive SingleEnd where
  | completedEnd
  | errorEnd (err : Option String)
  | stillPolling
deriving DecidableEq

/-- The single-video poll loop (lines 829-862): its `catch` only calls
`console.error`, so a failed tick polls on; `completed` and `error` clear the
interval; there is no `stopped` branch. -/
def singlePollLoop : List SingleTick → SingleEnd
  | [] => .stillPolling
  | t :: rest =>
    match t with
    | .netFailure _ => singlePollLoop rest
    | .noData => singlePollLoop rest
    | .progressUpdate status err =>
      if status = "completed" then .completedEnd
      else if status = "error" then .errorEnd err
      else singlePollLoop rest

/-! ## Helper lemmas on document field lookup -/

/-- Looking up a field other than the appended one goes to the original list. -/
theorem getField_append_of_ne {V : Type} (doc : List (String × V)) (v : V)
    (k key : String) (hk : k ≠ key) :
    getField (doc ++ [(key, v)]) k = getField doc k := by
  induction doc with
  | nil =>
    have hbeq : ((key, v).1 == k) = false := beq_eq_false_iff_ne.mpr (Ne.symm hk)
    simp [getField, List.find?_cons_of_neg, hbeq]
  | cons a t ih =>
    by_cases ha : (a.1 == k) = true
    · simp [getField, List.find?_cons_of_pos, ha]
    · simp only [Bool.not_eq_true] at ha
      simp only [getField, List.cons_append, List.find?_cons_of_neg, ha,
        Bool.false_eq_true, not_false_iff]
      simpa [getField] using ih

/-- Looking up the appended field when it was absent from the original list. -/
theorem getField_append_self {V : Type} (doc : List (String × V)) (v : V)
    (key : String) (habs : doc.any (fun p => p.1 == key) = false) :
    getField (doc ++ [(key, v)]) key = some v := by
  induction doc with
  | nil => simp [getField, List.find?]
  | cons a t ih =>
    simp only [List.any_cons, Bool.or_eq_false_iff] at habs
    simp only [getField, List.cons_append, List.find?_cons_of_neg, habs.1,
      Bool.false_eq_true, not_false_iff]
    simpa [getField] using ih habs.2

/-! ## Claims about the batch orchestrator and the poll loops -/

/-- C2 (code bug evidence). A 3-item batch where item 1 completes and the stop
flag is observed during item 2's polling: the model of `handleBatchTracking`
marks item 2 with status `error` (message `Stopped by user`) even though the
preceding comment says not to mark it as an error, leaves item 3 pending, and
the final statistics report 1 success and 2 failures, counting both the
stopped item and the untouched pending item as failed. -/
theorem batch_user_stop_recorded_as_error :
    handleBatchTracking
        [JobOutcome.pollResolve (7 : ℕ) false, JobOutcome.pollReject "Stopped by user",
          JobOutcome.pollResolve (9 : ℕ) false] =
      ⟨[⟨ItemStatus.completed, none, some 7⟩,
        ⟨ItemStatus.error, some "Stopped by user", none⟩,
        ⟨ItemStatus.pending, none, none⟩], [7]⟩ ∧
    batchSuccessCount (handleBatchTracking
        [JobOutcome.pollResolve (7 : ℕ) false, JobOutcome.pollReject "Stopped by user",
          JobOutcome.pollResolve (9 : ℕ) false]) = 1 ∧
    batchFailedCount 3 (handleBatchTracking
        [JobOutcome.pollResolve (7 : ℕ) false, JobOutcome.pollReject "Stopped by user",
          JobOutcome.pollResolve (9 : ℕ) false]) = 2 := by
  refine ⟨?_, rfl, rfl⟩
  simp [handleBatchTracking, pendingItem]

/-- C3 (counterexample). In the batch poll loop a transient network failure on
the first tick terminates the job with a rejection, even though the very next
tick would have reported `completed`; the claim that polling continues past a
failed iteration is false for `pollTrackingCompletion`. -/
theorem poll_net_failure_rejects_counterexample :
    pollTrackingCompletion
        [(PollTick.netFailure "Network Error" : PollTick ℕ),
          PollTick.progressUpdate "completed" none 5] =
      PollOutcome.rejected "Network Error" ∧
    pollTrackingCompletion [(PollTick.progressUpdate "completed" none 5 : PollTick ℕ)] =
      PollOutcome.resolved 5 := ⟨rfl, by simp [pollTrackingCompletion]⟩

/-- C3 (amended). A network failure during one poll iteration of the batch
loop `pollTrackingCompletion` terminates the job: the promise rejects with
that error and no further tick is examined. Only the single-video poll loop
in `handleStartTracking` logs the failure and keeps polling. -/
theorem poll_net_failure_terminates_batch_job :
    (∀ (V : Type) (msg : String) (rest : List (PollTick V)),
      pollTrackingCompletion (PollTick.netFailure msg :: rest) =
        PollOutcome.rejected msg) ∧
    (∀ (msg : String) (rest : List SingleTick),
      singlePollLoop (SingleTick.netFailure msg :: rest) = singlePollLoop rest) :=
  ⟨fun _ _ _ => rfl, fun _ _ => rfl⟩

/-- C4. Item failures are isolated: a poll rejection whose message is not the
user-stop marker records the error on that item and the loop continues with
the remaining queue unchanged; in particular a 3-video queue whose middle item
fails yields 2 results, 1 failure record, and 2 succeeded / 1 failed counts. -/
theorem batch_error_isolated :
    (∀ (V : Type) (msg : String) (rest : List (JobOutcome V)),
      msg ≠ "Stopped by user" →
      handleBatchTracking (JobOutcome.pollReject msg :: rest) =
        ⟨⟨ItemStatus.error, some msg, none⟩ :: (handleBatchTracking rest).items,
          (handleBatchTracking rest).results⟩) ∧
    (∀ (msg : String) (r1 r3 : ℕ), msg ≠ "Stopped by user" →
      handleBatchTracking
          [JobOutcome.pollResolve r1 false, JobOutcome.pollReject msg,
            JobOutcome.pollResolve r3 false] =
        ⟨[⟨ItemStatus.completed, none, some r1⟩,
          ⟨ItemStatus.error, some msg, none⟩,
          ⟨ItemStatus.completed, none, some r3⟩], [r1, r3]⟩ ∧
      batchSuccessCount (handleBatchTracking
          [JobOutcome.pollResolve r1 false, JobOutcome.pollReject msg,
            JobOutcome.pollResolve r3 false]) = 2 ∧
      batchFailedCount 3 (handleBatchTracking
          [JobOutcome.pollResolve r1 false, JobOutcome.pollReject msg,
            JobOutcome.pollResolve r3 false]) = 1) := by
  constructor
  · intro V msg rest h
    simp [handleBatchTracking, h]
  · intro msg r1 r3 h
    refine ⟨?_, ?_, ?_⟩ <;> simp [handleBatchTracking, batchSuccessCount, batchFailedCount, h]

/-- Witness for C4 at a concrete queue. -/
theorem batch_error_isolated_witness :
    ("backend exploded" ≠ "Stopped by user") ∧
    (handleBatchTracking
        [JobOutcome.pollResolve (7 : ℕ) false, JobOutcome.pollReject "backend exploded",
          JobOutcome.pollResolve (9 : ℕ) false] =
      ⟨[⟨ItemStatus.completed, none, some 7⟩,
        ⟨ItemStatus.error, some "backend exploded", none⟩,
        ⟨ItemStatus.completed, none, some 9⟩], [7, 9]⟩ ∧
    batchSuccessCount (handleBatchTracking
        [JobOutcome.pollResolve (7 : ℕ) false, JobOutcome.pollReject "backend exploded",
          JobOutcome.pollResolve (9 : ℕ) false]) = 2 ∧
    batchFailedCount 3 (handleBatchTracking
        [JobOutcome.pollResolve (7 : ℕ) false, JobOutcome.pollReject "backend exploded",
          JobOutcome.pollResolve (9 : ℕ) false]) = 1) :=
  ⟨by decide, batch_error_isolated.2 "backend exploded" 7 9 (by decide)⟩

/-- C7. Merging the detector output into a result document without a
`rearing_analysis` field adds exactly that one field and leaves the lookup of
every other top-level field unchanged. -/
theorem merge_rearing_preserves_fields {V : Type} (doc : List (String × V)) (ra : V)
    (habs : doc.any (fun p => p.1 == "rearing_analysis") = false) :
    (∀ k, k ≠ "rearing_analysis" →
      getField (jsSpreadSet doc "rearing_analysis" ra) k = getField doc k) ∧
    getField (jsSpreadSet doc "rearing_analysis" ra) "rearing_analysis" = some ra ∧
    (jsSpreadSet doc "rearing_analysis" ra).length = doc.length + 1 := by
  have hset : jsSpreadSet doc "rearing_analysis" ra =
      doc ++ [("rearing_analysis", ra)] := by
    simp [jsSpreadSet, habs]
  refine ⟨?_, ?_, ?_⟩
  · intro k hk
    rw [hset]
    exact getField_append_of_ne doc ra k "rearing_analysis" hk
  · rw [hset]
    exact getField_append_self doc ra "rearing_analysis" habs
  · rw [hset]
    simp

/-- Witness for C7 at a concrete two-field document. -/
theorem merge_rearing_preserves_fields_witness :
    (([("video_name", (1 : ℕ)), ("fps", 30)]).any
        (fun p => p.1 == "rearing_analysis") = false) ∧
    ((∀ k, k ≠ "rearing_analysis" →
      getField (jsSpreadSet [("video_name", (1 : ℕ)), ("fps", 30)]
        "rearing_analysis" 99) k =
      getField [("video_name", (1 : ℕ)), ("fps", 30)] k) ∧
    getField (jsSpreadSet [("video_name", (1 : ℕ)), ("fps", 30)]
      "rearing_analysis" 99) "rearing_analysis" = some 99 ∧
    (jsSpreadSet [("video_name", (1 : ℕ)), ("fps", 30)] "rearing_analysis" 99).length =
      ([("video_name", (1 : ℕ)), ("fps", 30)] : List (String × ℕ)).length + 1) :=
  ⟨by decide, merge_rearing_preserves_fields [("video_name", 1), ("fps", 30)] 99 (by decide)⟩

/-! ## Step lemmas for the rearing state machine -/

/-- A frame seen as outside while the state is OUTSIDE changes nothing. -/
theorem processFrame_of_out_out {ty : AnalysisType} {selected : List ℕ}
    {upper : RearingROI} {s : RearingState} {f : TrackFrame}
    (h1 : frameIsRearing ty selected upper f = false)
    (h2 : s.currentRearingState = false) :
    processFrame ty selected upper s f = s := by
  simp [processFrame, h1, h2]

/-- A frame seen as inside while the state is INSIDE changes nothing. -/
theorem processFrame_of_in_in {ty : AnalysisType} {selected : List ℕ}
    {upper : RearingROI} {s : RearingState} {f : TrackFrame}
    (h1 : frameIsRearing ty selected upper f = true)
    (h2 : s.currentRearingState = true) :
    processFrame ty selected upper s f = s := by
  simp [processFrame, h1, h2]

/-- The state produced by the entering branch of `processFrame`. -/
def enterStep (s : RearingState) (f : TrackFrame) : RearingState :=
  { s with rearingCount := s.rearingCount + 1,
           rearingStartFrame := f.frame_number,
           currentRearingState := true }

/-- The state produced by the closing branch of `processFrame`: the event
from the recorded start frame to the current frame is appended. -/
def closeStep (s : RearingState) (f : TrackFrame) : RearingState :=
  let closed : RearingEvent :=
    ⟨s.rearingStartFrame, f.frame_number, f.frame_number - s.rearingStartFrame⟩
  { s with detectedEvents := s.detectedEvents ++ [closed],
           currentRearingState := false }

/-- A frame seen as inside while the state is OUTSIDE enters: the count is
incremented and the start frame recorded. -/
theorem processFrame_enter {ty : AnalysisType} {selected : List ℕ}
    {upper : RearingROI} {s : RearingState} {f : TrackFrame}
    (h1 : frameIsRearing ty selected upper f = true)
    (h2 : s.currentRearingState = false) :
    processFrame ty selected upper s f = enterStep s f := by
  simp [processFrame, enterStep, h1, h2]

/-- A frame seen as outside while the state is INSIDE closes the event. -/
theorem processFrame_close {ty : AnalysisType} {selected : List ℕ}
    {upper : RearingROI} {s : RearingState} {f : TrackFrame}
    (h1 : frameIsRearing ty selected upper f = false)
    (h2 : s.currentRearingState = true) :
    processFrame ty selected upper s f = closeStep s f := by
  simp [processFrame, closeStep, h1, h2]

/-- Folding over frames that are all outside, starting outside, is a no-op. -/
theorem foldl_outside {ty : AnalysisType} {selected : List ℕ} {upper : RearingROI} :
    ∀ (l : List TrackFrame) (s : RearingState), s.currentRearingState = false →
      (∀ f ∈ l, frameIsRearing ty selected upper f = false) →
      l.foldl (processFrame ty selected upper) s = s := by
  intro l
  induction l with
  | nil => intro s _ _; rfl
  | cons a t ih =>
    intro s hs hall
    have ha := hall a (List.mem_cons_self a t)
    rw [List.foldl_cons, processFrame_of_out_out ha hs]
    exact ih s hs (fun f hf => hall f (List.mem_cons_of_mem a hf))

/-- Folding over frames that are all inside, starting inside, is a no-op. -/
theorem foldl_inside {ty : AnalysisType} {selected : List ℕ} {upper : RearingROI} :
    ∀ (l : List TrackFrame) (s : RearingState), s.currentRearingState = true →
      (∀ f ∈ l, frameIsRearing ty selected upper f = true) →
      l.foldl (processFrame ty selected upper) s = s := by
  intro l
  induction l with
  | nil => intro s _ _; rfl
  | cons a t ih =>
    intro s hs hall
    have ha := hall a (List.mem_cons_self a t)
    rw [List.foldl_cons, processFrame_of_in_in ha hs]
    exact ih s hs (fun f hf => hall f (List.mem_cons_of_mem a hf))

/-- The loop invariant tying the rearing counter to the event list: the count
equals the number of closed events, plus one for an open run. -/
def rearingCountInv (s : RearingState) : Prop :=
  s.rearingCount = s.detectedEvents.length + (if s.currentRearingState then 1 else 0)

/-- One step preserves the counter invariant. -/
theorem processFrame_countInv {ty : AnalysisType} {selected : List ℕ}
    {upper : RearingROI} {s : RearingState} (f : TrackFrame)
    (h : rearingCountInv s) :
    rearingCountInv (processFrame ty selected upper s f) := by
  unfold rearingCountInv at h ⊢
  cases hr : frameIsRearing ty selected upper f <;>
    cases hc : s.currentRearingState
  · rw [processFrame_of_out_out hr hc]
    exact h
  · rw [processFrame_close hr hc]
    rw [hc] at h
    have h2 : s.rearingCount = s.detectedEvents.length + 1 := by simpa using h
    simp [closeStep]
    omega
  · rw [processFrame_enter hr hc]
    rw [hc] at h
    have h2 : s.rearingCount = s.detectedEvents.length := by simpa using h
    simp [enterStep]
    omega
  · rw [processFrame_of_in_in hr hc]
    exact h

/-- The fold preserves the counter invariant. -/
theorem foldl_countInv {ty : AnalysisType} {selected : List ℕ} {upper : RearingROI} :
    ∀ (l : List TrackFrame) (s : RearingState), rearingCountInv s →
      rearingCountInv (l.foldl (processFrame ty selected upper) s) := by
  intro l
  induction l with
  | nil => intro s hs; exact hs
  | cons a t ih =>
    intro s hs
    exact ih _ (processFrame_countInv a hs)

/-- Any full detector run satisfies the counter invariant. -/
theorem runRearing_countInv (ty : AnalysisType) (selected : List ℕ)
    (upper : RearingROI) (frames : List TrackFrame) :
    rearingCountInv (runRearing ty selected upper frames) :=
  foldl_countInv frames initialRearingState (by simp [rearingCountInv, initialRearingState])

/-! ## Claims about the rearing detector -/

/-- No configured keypoint of the frame reaches `conf > 0.5`: the pose branch
finds no detection point on this frame. -/
def poseNoDetection (selected : List ℕ) (f : TrackFrame) : Bool :=
  match f.keypoints with
  | none => true
  | some kps => selected.all (fun i =>
      match kps.get? i with
      | some kp => decide (kp.conf ≤ 1 / 2)
      | none => true)

/-- A no-detection frame makes the pose branch report not rearing. -/
theorem frameIsRearing_of_noDetection {selected : List ℕ} {upper : RearingROI}
    {f : TrackFrame} (hnd : poseNoDetection selected f = true) :
    frameIsRearing .pose selected upper f = false := by
  unfold poseNoDetection at hnd
  unfold frameIsRearing
  cases hk : f.keypoints with
  | none => rfl
  | some kps =>
    rw [hk] at hnd
    rw [List.all_eq_true] at hnd
    unfold poseRearing
    rw [List.any_eq_false]
    intro i hi
    have hnd_i := hnd i hi
    cases hgi : kps.get? i with
    | none => simp [hgi]
    | some kp =>
      simp only [hgi] at hnd_i
      have hle : kp.conf ≤ 1 / 2 := of_decide_eq_true hnd_i
      have hfalse : (decide (kp.conf > 1 / 2)) = false := by
        rw [decide_eq_false_iff_not]
        exact not_lt.mpr hle
      simp only [hgi, hfalse, Bool.false_and]
      exact Bool.false_ne_true

/-- Demonstration upper-edge ROI shared by the concrete runs below. -/
def demoUpper : RearingROI := ⟨"upper_edge", 50, 50, 5⟩

/-- A keypoint at the ROI center with confidence 0.9. -/
def kpIn : Keypoint := ⟨50, 50, 9 / 10⟩

/-- Frame 0: one confident keypoint inside the upper edge. -/
def fr0 : TrackFrame := ⟨0, 0, 0, some [kpIn]⟩

/-- Frame 1: a present but empty keypoint array, hence no detection. -/
def fr1 : TrackFrame := ⟨1, 0, 0, some []⟩

/-- C1 (counterexample). In pose mode, frame `fr1` yields no detection, yet
processing it after the confident inside frame `fr0` flips the state from
INSIDE to OUTSIDE and appends an event: a no-detection frame does close an
in-progress event, so state and event list are not unchanged. -/
theorem rearing_no_detection_counterexample :
    poseNoDetection [0] fr1 = true ∧
    (runRearing .pose [0] demoUpper [fr0]).currentRearingState = true ∧
    (runRearing .pose [0] demoUpper [fr0]).detectedEvents = [] ∧
    (runRearing .pose [0] demoUpper [fr0, fr1]).currentRearingState = false ∧
    (runRearing .pose [0] demoUpper [fr0, fr1]).detectedEvents = [⟨0, 1, 1⟩] := by
  refine ⟨by decide, ?_, ?_, ?_, ?_⟩ <;>
    norm_num [runRearing, processFrame, frameIsRearing, poseRearing, insideCircleROI,
      demoUpper, fr0, fr1, kpIn, initialRearingState]

/-- C1 (amended). A no-detection frame is treated exactly like a frame whose
point is outside the upper edge: while INSIDE it transitions to OUTSIDE and
closes the in-progress event at that frame; while OUTSIDE it changes nothing. -/
theorem rearing_no_detection_closes_event (selected : List ℕ) (upper : RearingROI)
    (s : RearingState) (f : TrackFrame) (hnd : poseNoDetection selected f = true) :
    processFrame .pose selected upper s f =
      if s.currentRearingState then closeStep s f else s := by
  have hr := @frameIsRearing_of_noDetection selected upper f hnd
  cases hc : s.currentRearingState
  · rw [if_neg (by simp [hc])]
    exact processFrame_of_out_out hr hc
  · rw [if_pos (by simp [hc])]
    exact processFrame_close hr hc

/-- Witness for the amended C1 at a concrete open-run state and frame. -/
theorem rearing_no_detection_closes_event_witness :
    poseNoDetection [0] fr1 = true ∧
    processFrame .pose [0] demoUpper ⟨1, true, 0, []⟩ fr1 =
      ⟨1, false, 0, [⟨0, 1, 1⟩]⟩ := by
  have h : poseNoDetection [0] fr1 = true := by decide
  refine ⟨h, ?_⟩
  rw [rearing_no_detection_closes_event [0] demoUpper ⟨1, true, 0, []⟩ fr1 h]
  norm_num [closeStep, fr1]

/-- C6. A trailing frame whose detection point is inside the upper edge never
appends an event (the run stays open), leaves the machine INSIDE, and makes
the rearing counter exceed the emitted event list length by exactly one. -/
theorem rearing_trailing_run_dropped (ty : AnalysisType) (selected : List ℕ)
    (upper : RearingROI) (l : List TrackFrame) (f : TrackFrame)
    (hin : frameIsRearing ty selected upper f = true) :
    (runRearing ty selected upper (l ++ [f])).detectedEvents =
      (runRearing ty selected upper l).detectedEvents ∧
    (runRearing ty selected upper (l ++ [f])).currentRearingState = true ∧
    (runRearing ty selected upper (l ++ [f])).rearingCount =
      (runRearing ty selected upper (l ++ [f])).detectedEvents.length + 1 := by
  have hsplit : runRearing ty selected upper (l ++ [f]) =
      processFrame ty selected upper (runRearing ty selected upper l) f := by
    unfold runRearing
    rw [List.foldl_append]
    rfl
  have hinv := runRearing_countInv ty selected upper (l ++ [f])
  unfold rearingCountInv at hinv
  rw [hsplit] at hinv ⊢
  cases hc : (runRearing ty selected upper l).currentRearingState
  · rw [processFrame_enter hin hc] at hinv ⊢
    refine ⟨rfl, rfl, ?_⟩
    have h2 : (enterStep (runRearing ty selected upper l) f).currentRearingState = true := rfl
    rw [h2, if_pos rfl] at hinv
    exact hinv
  · rw [processFrame_of_in_in hin hc] at hinv ⊢
    refine ⟨rfl, hc, ?_⟩
    rw [hc, if_pos rfl] at hinv
    exact hinv

/-- C8. If the detection point never enters the upper edge, the emitted event
list is empty, and the guarded average makes `average_duration_seconds` zero
without ever dividing by the event count. -/
theorem rearing_never_inside_stats (ty : AnalysisType) (selected : List ℕ)
    (upper : RearingROI) (fps : ℚ) (frames : List TrackFrame)
    (h : ∀ f ∈ frames, frameIsRearing ty selected upper f = false) :
    (runRearing ty selected upper frames).detectedEvents = [] ∧
    (rearingStatistics fps
      (runRearing ty selected upper frames).detectedEvents).average_duration_seconds = 0 := by
  have h0 : runRearing ty selected upper frames = initialRearingState :=
    foldl_outside frames initialRearingState rfl h
  rw [h0]
  refine ⟨rfl, ?_⟩
  show (rearingStatistics fps []).average_duration_seconds = 0
  norm_num [rearingStatistics, round2]

/-- A frame whose centroid sits far outside the demonstration upper edge. -/
def frOut : TrackFrame := ⟨0, 0, 0, none⟩

/-- Witness for C8 on a one-frame sequence that never enters the ROI. -/
theorem rearing_never_inside_stats_witness :
    (∀ f ∈ [frOut], frameIsRearing .segmentation [] demoUpper f = false) ∧
    ((runRearing .segmentation [] demoUpper [frOut]).detectedEvents = [] ∧
      (rearingStatistics 30
        (runRearing .segmentation [] demoUpper [frOut]).detectedEvents).average_duration_seconds
        = 0) := by
  have h : ∀ f ∈ [frOut], frameIsRearing .segmentation [] demoUpper f = false := by
    intro f hf
    rw [List.mem_singleton] at hf
    subst hf
    norm_num [frameIsRearing, insideCircleROI, demoUpper, frOut]
  exact ⟨h, rearing_never_inside_stats .segmentation [] demoUpper 30 [frOut] h⟩

/-- C5. For any frame sequence of at least 26 frames, numbered consecutively,
whose detection point is inside the upper edge exactly at frames 10 through
24, the detector emits exactly the single event from frame 10 to frame 25
with a 15-frame duration. -/
theorem rearing_single_event (ty : AnalysisType) (selected : List ℕ)
    (upper : RearingROI) (frames : List TrackFrame) (hlen : 26 ≤ frames.length)
    (hpat : ∀ i, (h : i < frames.length) → frames[i].frame_number = (i : ℤ) ∧
      frameIsRearing ty selected upper frames[i] = decide (10 ≤ i ∧ i < 25)) :
    (runRearing ty selected upper frames).detectedEvents = [⟨10, 25, 15⟩] := by
  have key : ∀ m, m ≤ frames.length →
      (frames.take m).foldl (processFrame ty selected upper) initialRearingState =
        (if m ≤ 10 then initialRearingState
         else if m ≤ 25 then ⟨1, true, 10, []⟩
         else ⟨1, false, 10, [⟨10, 25, 15⟩]⟩) := by
    intro m
    induction m with
    | zero =>
      intro _
      rw [if_pos (by omega : (0 : ℕ) ≤ 10)]
      rfl
    | succ m ih =>
      intro hm1
      have hmlt : m < frames.length := by omega
      have hih := ih (by omega)
      obtain ⟨hfn, hir⟩ := hpat m hmlt
      rw [List.take_succ, List.getElem?_eq_getElem hmlt]
      simp only [Option.toList_some]
      rw [List.foldl_append, hih, List.foldl_cons, List.foldl_nil]
      by_cases h10 : m < 10
      · have hd : frameIsRearing ty selected upper frames[m] = false := by
          rw [hir]
          simp only [decide_eq_false_iff_not]
          omega
        rw [if_pos (by omega : m ≤ 10), if_pos (by omega : m + 1 ≤ 10)]
        exact processFrame_of_out_out hd rfl
      · by_cases h10e : m = 10
        · subst h10e
          have hd : frameIsRearing ty selected upper frames[10] = true := by
            rw [hir]
            simp only [decide_eq_true_eq]
            omega
          rw [if_pos (by omega : (10 : ℕ) ≤ 10),
            if_neg (by omega : ¬ (10 + 1 ≤ 10)), if_pos (by omega : 10 + 1 ≤ 25)]
          rw [processFrame_enter hd rfl]
          norm_num [enterStep, initialRearingState, hfn]
        · by_cases h25 : m < 25
          · have hd : frameIsRearing ty selected upper frames[m] = true := by
              rw [hir]
              simp only [decide_eq_true_eq]
              omega
            rw [if_neg (by omega : ¬ (m ≤ 10)), if_pos (by omega : m ≤ 25),
              if_neg (by omega : ¬ (m + 1 ≤ 10)), if_pos (by omega : m + 1 ≤ 25)]
            exact processFrame_of_in_in hd rfl
          · by_cases h25e : m = 25
            · subst h25e
              have hd : frameIsRearing ty selected upper frames[25] = false := by
                rw [hir]
                simp only [decide_eq_false_iff_not]
                omega
              rw [if_neg (by omega : ¬ ((25 : ℕ) ≤ 10)), if_pos (by omega : (25 : ℕ) ≤ 25),
                if_neg (by omega : ¬ (25 + 1 ≤ 10)), if_neg (by omega : ¬ (25 + 1 ≤ 25))]
              rw [processFrame_close hd rfl]
              norm_num [closeStep, hfn]
            · have hd : frameIsRearing ty selected upper frames[m] = false := by
                rw [hir]
                simp only [decide_eq_false_iff_not]
                omega
              rw [if_neg (by omega : ¬ (m ≤ 10)), if_neg (by omega : ¬ (m ≤ 25)),
                if_neg (by omega : ¬ (m + 1 ≤ 10)), if_neg (by omega : ¬ (m + 1 ≤ 25))]
              exact processFrame_of_out_out hd rfl
  have hfin := key frames.length (le_refl _)
  rw [List.take_length] at hfin
  unfold runRearing
  rw [hfin, if_neg (by omega : ¬ (frames.length ≤ 10)),
    if_neg (by omega : ¬ (frames.length ≤ 25))]

/-- The demonstration frame family: inside the upper edge exactly at frames
10 through 24. -/
def demoFrame (i : ℕ) : TrackFrame :=
  ⟨(i : ℤ), if 10 ≤ i ∧ i < 25 then 50 else 0, if 10 ≤ i ∧ i < 25 then 50 else 0, none⟩

/-- Twenty-six demonstration frames. -/
def demoFrames : List TrackFrame := (List.range 26).map demoFrame

/-- Witness for C5 on the demonstration frames. -/
theorem rearing_single_event_witness :
    (26 ≤ demoFrames.length ∧
      ∀ i, (h : i < demoFrames.length) → demoFrames[i].frame_number = (i : ℤ) ∧
        frameIsRearing .segmentation [] demoUpper demoFrames[i] =
          decide (10 ≤ i ∧ i < 25)) ∧
    (runRearing .segmentation [] demoUpper demoFrames).detectedEvents = [⟨10, 25, 15⟩] := by
  have h1 : 26 ≤ demoFrames.length := by norm_num [demoFrames]
  have h2 : ∀ i, (h : i < demoFrames.length) → demoFrames[i].frame_number = (i : ℤ) ∧
      frameIsRearing .segmentation [] demoUpper demoFrames[i] =
        decide (10 ≤ i ∧ i < 25) := by
    intro i h
    have hg : demoFrames[i] = demoFrame i := by
      simp [demoFrames, List.getElem_map]
    rw [hg]
    refine ⟨rfl, ?_⟩
    by_cases hin : 10 ≤ i ∧ i < 25
    · simp only [demoFrame, if_pos hin, frameIsRearing, insideCircleROI, demoUpper]
      rw [decide_eq_true hin]
      norm_num
    · simp only [demoFrame, if_neg hin, frameIsRearing, insideCircleROI, demoUpper]
      rw [decide_eq_false hin]
      norm_num
  exact ⟨⟨h1, h2⟩, rearing_single_event .segmentation [] demoUpper demoFrames h1 h2⟩

theorem foldl_flip_eq_parity {α : Type} (p : α → Bool) :
    ∀ (l : List α) (b : Bool),
      l.foldl (fun acc e => if p e then !acc else acc) b =
        (b != decide (l.countP p % 2 = 1)) := by
  intro l
  induction l with
  | nil =>
    intro b
    simp [List.countP_nil]
  | cons a t ih =>
    intro b
    rw [List.foldl_cons, List.countP_cons]
    by_cases hp : p a = true
    · have hd : decide ((t.countP p + 1) % 2 = 1) = !decide (t.countP p % 2 = 1) := by
        rcases Nat.mod_two_eq_zero_or_one (t.countP p) with h | h
        · have h1 : (t.countP p + 1) % 2 = 1 := by omega
          have h0 : ¬ (t.countP p % 2 = 1) := by omega
          simp [h1, h0]
        · have h1 : ¬ ((t.countP p + 1) % 2 = 1) := by omega
          simp [h1, h]
      simp only [hp, eq_self_iff_true, if_true]
      rw [ih, hd]
      cases b <;> cases hq : decide (t.countP p % 2 = 1) <;> rfl
    · rw [Bool.not_eq_true] at hp
      simp only [hp, Bool.false_eq_true, if_false]
      rw [ih]
      norm_num

theorem isPointInPolygon_parity (x y : ℚ) (vs : List (ℚ × ℚ)) :
    isPointInPolygon x y vs =
      decide ((polyEdges vs).countP (edgeTest x y) % 2 = 1) := by
  unfold isPointInPolygon
  rw [foldl_flip_eq_parity (edgeTest x y) (polyEdges vs) false]
  cases hq : decide ((polyEdges vs).countP (edgeTest x y) % 2 = 1) <;> rfl

theorem zip_drop_eq {α β : Type} : ∀ (n : ℕ) (a : List α) (b : List β),
    (a.zip b).drop n = (a.drop n).zip (b.drop n) := by
  intro n
  induction n with
  | zero => intro a b; rfl
  | succ n ih =>
    intro a b
    cases a with
    | nil => simp
    | cons x xs =>
      cases b with
      | nil => simp
      | cons y ys =>
        rw [List.zip_cons_cons, List.drop_succ_cons, List.drop_succ_cons,
          List.drop_succ_cons, ih]

theorem zip_take_eq {α β : Type} : ∀ (n : ℕ) (a : List α) (b : List β),
    (a.zip b).take n = (a.take n).zip (b.take n) := by
  intro n
  induction n with
  | zero => intro a b; rfl
  | succ n ih =>
    intro a b
    cases a with
    | nil => simp
    | cons x xs =>
      cases b with
      | nil => simp
      | cons y ys =>
        rw [List.zip_cons_cons, List.take_succ_cons, List.take_succ_cons,
          List.take_succ_cons, ih, List.zip_cons_cons]

theorem zip_rotate_eq {α β : Type} (a : List α) (b : List β)
    (h : a.length = b.length) (k : ℕ) :
    (a.rotate k).zip (b.rotate k) = (a.zip b).rotate k := by
  rcases Nat.eq_zero_or_pos a.length with h0 | hpos
  · have ha : a = [] := List.length_eq_zero.mp h0
    have hb : b = [] := List.length_eq_zero.mp (by omega)
    subst ha
    subst hb
    simp
  · have hma : k % a.length < a.length := Nat.mod_lt _ hpos
    have hmb : k % b.length = k % a.length := by rw [h]
    have hmz : (a.zip b).length = a.length := by
      rw [List.length_zip, h, min_self]
    rw [← List.rotate_mod a k, ← List.rotate_mod b k, ← List.rotate_mod (a.zip b) k]
    rw [hmb, hmz]
    rw [List.rotate_eq_drop_append_take (le_of_lt hma),
      List.rotate_eq_drop_append_take (le_of_lt (by omega : k % a.length < b.length)),
      List.rotate_eq_drop_append_take
        (show k % a.length ≤ (a.zip b).length by rw [hmz]; exact le_of_lt hma)]
    rw [List.zip_append (by rw [List.length_drop, List.length_drop, h])]
    rw [zip_drop_eq, zip_take_eq]

theorem polyEdges_rotate (vs : List (ℚ × ℚ)) (k : ℕ) :
    polyEdges (vs.rotate k) = (polyEdges vs).rotate k := by
  unfold polyEdges
  rw [List.length_rotate, List.rotate_rotate, Nat.add_comm k (vs.length - 1),
    ← List.rotate_rotate]
  exact zip_rotate_eq vs (vs.rotate (vs.length - 1)) (by rw [List.length_rotate]) k

/-- The point lies on the closed segment between two vertices. -/
def onSegment (x y : ℚ) (u v : ℚ × ℚ) : Prop :=
  (v.1 - u.1) * (y - u.2) = (v.2 - u.2) * (x - u.1) ∧
  min u.1 v.1 ≤ x ∧ x ≤ max u.1 v.1 ∧ min u.2 v.2 ≤ y ∧ y ≤ max u.2 v.2

/-- The point lies on the boundary of the polygon. -/
def onPolygonBoundary (vs : List (ℚ × ℚ)) (x y : ℚ) : Prop :=
  ∃ e ∈ polyEdges vs, onSegment x y e.1 e.2

/-- C10. For every polygon with at least 3 vertices and every point not on
any edge, containment is invariant under every cyclic shift of the vertex
list: the shifted vertex list produces the same edge set up to order, and the
even-odd crossing parity does not depend on the edge order. -/
theorem polygon_cyclic_shift_invariance (vs : List (ℚ × ℚ)) (k : ℕ) (x y : ℚ)
    (h3 : 3 ≤ vs.length) (hb : ¬ onPolygonBoundary vs x y) :
    isPointInPolygon x y (vs.rotate k) = isPointInPolygon x y vs := by
  rw [isPointInPolygon_parity, isPointInPolygon_parity, polyEdges_rotate]
  rw [(List.rotate_perm (polyEdges vs) k).countP_eq]

/-- Witness for C10: a square, shifted by two, at an interior point. -/
theorem polygon_cyclic_shift_invariance_witness :
    (3 ≤ ([((0:ℚ),(0:ℚ)), (4,0), (4,4), (0,4)] : List (ℚ × ℚ)).length ∧
      ¬ onPolygonBoundary [((0:ℚ),(0:ℚ)), (4,0), (4,4), (0,4)] 2 2) ∧
    isPointInPolygon 2 2 ([((0:ℚ),(0:ℚ)), (4,0), (4,4), (0,4)].rotate 2) =
      isPointInPolygon 2 2 [((0:ℚ),(0:ℚ)), (4,0), (4,4), (0,4)] := by
  have h3 : 3 ≤ ([((0:ℚ),(0:ℚ)), (4,0), (4,4), (0,4)] : List (ℚ × ℚ)).length := by
    norm_num
  have hb : ¬ onPolygonBoundary [((0:ℚ),(0:ℚ)), (4,0), (4,4), (0,4)] 2 2 := by
    norm_num [onPolygonBoundary, polyEdges, onSegment, List.rotate]
  exact ⟨⟨h3, hb⟩, polygon_cyclic_shift_invariance _ 2 2 2 h3 hb⟩

theorem polyEdges_mem {vs : List (ℚ × ℚ)} {e : (ℚ × ℚ) × (ℚ × ℚ)}
    (he : e ∈ polyEdges vs) : e.1 ∈ vs ∧ e.2 ∈ vs := by
  unfold polyEdges at he
  have h2 := List.of_mem_zip he
  exact ⟨h2.1, (List.rotate_perm vs (vs.length - 1)).mem_iff.mp h2.2⟩

theorem edgeCrosses_t_bounds {u v : ℚ × ℚ} {y : ℚ}
    (h : edgeCrosses y (u, v) = true) :
    0 ≤ (y - u.2) / (v.2 - u.2) ∧ (y - u.2) / (v.2 - u.2) ≤ 1 := by
  unfold edgeCrosses at h
  by_cases h1 : y < u.2 <;> by_cases h2 : y < v.2
  · simp [h1, h2] at h
  · have hd : v.2 - u.2 < 0 := by linarith
    constructor
    · exact div_nonneg_of_nonpos (by linarith) (by linarith)
    · rw [div_le_one_iff]
      right
      right
      constructor
      · exact hd
      · linarith
  · have hd : 0 < v.2 - u.2 := by linarith
    constructor
    · exact div_nonneg (by linarith) (by linarith)
    · rw [div_le_one hd]
      linarith
  · simp [h1, h2] at h

theorem affine_between {a b t : ℚ} (h0 : 0 ≤ t) (h1 : t ≤ 1) :
    min a b ≤ a + (b - a) * t ∧ a + (b - a) * t ≤ max a b := by
  rcases le_total a b with hab | hab
  · rw [min_eq_left hab, max_eq_right hab]
    constructor
    · nlinarith [mul_nonneg (sub_nonneg.mpr hab) h0]
    · nlinarith [mul_nonneg (sub_nonneg.mpr hab) (by linarith : (0:ℚ) ≤ 1 - t)]
  · rw [min_eq_right hab, max_eq_left hab]
    constructor
    · nlinarith [mul_nonneg (sub_nonneg.mpr hab) (by linarith : (0:ℚ) ≤ 1 - t)]
    · nlinarith [mul_nonneg (sub_nonneg.mpr hab) h0]

theorem interX_bounds {u v : ℚ × ℚ} {y : ℚ} (h : edgeCrosses y (u, v) = true) :
    min u.1 v.1 ≤ (v.1 - u.1) * (y - u.2) / (v.2 - u.2) + u.1 ∧
    (v.1 - u.1) * (y - u.2) / (v.2 - u.2) + u.1 ≤ max u.1 v.1 := by
  obtain ⟨ht0, ht1⟩ := edgeCrosses_t_bounds h
  have hrw : (v.1 - u.1) * (y - u.2) / (v.2 - u.2) + u.1 =
      u.1 + (v.1 - u.1) * ((y - u.2) / (v.2 - u.2)) := by
    rw [mul_div_assoc, add_comm]
  rw [hrw]
  exact affine_between ht0 ht1

theorem edgeTest_false_of_not_crossing {x y : ℚ} {e : (ℚ × ℚ) × (ℚ × ℚ)}
    (hc : edgeCrosses y e = false) : edgeTest x y e = false := by
  unfold edgeTest
  rw [hc, Bool.false_and]

theorem edgeTest_false_right {x y : ℚ} {e : (ℚ × ℚ) × (ℚ × ℚ)}
    (h1 : e.1.1 < x) (h2 : e.2.1 < x) : edgeTest x y e = false := by
  by_cases hc : edgeCrosses y e = true
  · unfold edgeTest
    rw [hc, Bool.true_and]
    apply decide_eq_false
    rw [not_lt]
    have hb := (@interX_bounds e.1 e.2 y hc).2
    calc (e.2.1 - e.1.1) * (y - e.1.2) / (e.2.2 - e.1.2) + e.1.1
        ≤ max e.1.1 e.2.1 := hb
      _ ≤ x := le_of_lt (max_lt h1 h2)
  · exact edgeTest_false_of_not_crossing (Bool.not_eq_true _ ▸ hc)

theorem edgeTest_eq_crosses_left {x y : ℚ} {e : (ℚ × ℚ) × (ℚ × ℚ)}
    (h1 : x < e.1.1) (h2 : x < e.2.1) : edgeTest x y e = edgeCrosses y e := by
  by_cases hc : edgeCrosses y e = true
  · unfold edgeTest
    rw [hc, Bool.true_and]
    apply decide_eq_true
    have hb := (@interX_bounds e.1 e.2 y hc).1
    calc x < min e.1.1 e.2.1 := lt_min h1 h2
      _ ≤ (e.2.1 - e.1.1) * (y - e.1.2) / (e.2.2 - e.1.2) + e.1.1 := hb
  · have hc2 : edgeCrosses y e = false := by
      rw [← Bool.not_eq_true]
      exact hc
    rw [hc2]
    exact edgeTest_false_of_not_crossing hc2

theorem countP_bne_zip_parity : ∀ (bs cs : List Bool), bs.length = cs.length →
    ((bs.zip cs).countP (fun e => e.1 != e.2) + bs.countP (fun b => b) +
      cs.countP (fun b => b)) % 2 = 0 := by
  intro bs
  induction bs with
  | nil =>
    intro cs h
    have hc : cs = [] := List.length_eq_zero.mp h.symm
    subst hc
    rfl
  | cons b bs ih =>
    intro cs h
    cases cs with
    | nil => simp at h
    | cons c cs =>
      rw [List.length_cons, List.length_cons] at h
      have ht := ih cs (by omega)
      rw [List.zip_cons_cons, List.countP_cons, List.countP_cons, List.countP_cons]
      cases b <;> cases c <;> simp <;> omega

theorem countP_edgeCrosses_even (vs : List (ℚ × ℚ)) (y : ℚ) :
    (polyEdges vs).countP (edgeCrosses y) % 2 = 0 := by
  have h1 : ((vs.map (fun v => decide (v.2 > y))).zip
        ((vs.rotate (vs.length - 1)).map (fun v => decide (v.2 > y)))).countP
        (fun e => e.1 != e.2) = (polyEdges vs).countP (edgeCrosses y) := by
    have hfun : ((fun e : Bool × Bool => e.1 != e.2) ∘
        Prod.map (fun v : ℚ × ℚ => decide (v.2 > y)) (fun v : ℚ × ℚ => decide (v.2 > y))) =
        edgeCrosses y := by
      funext e
      simp [edgeCrosses, Prod.map, Function.comp]
    rw [List.zip_map, List.countP_map, hfun]
    rfl
  have h2 := countP_bne_zip_parity (vs.map (fun v => decide (v.2 > y)))
    ((vs.rotate (vs.length - 1)).map (fun v => decide (v.2 > y))) (by simp)
  have h3 : ((vs.rotate (vs.length - 1)).map (fun v => decide (v.2 > y))).countP
      (fun b => b) = (vs.map (fun v => decide (v.2 > y))).countP (fun b => b) := by
    rw [List.map_rotate]
    exact (List.rotate_perm (vs.map (fun v => decide (v.2 > y))) (vs.length - 1)).countP_eq _
  rw [h1, h3] at h2
  omega

/-- The point lies strictly outside the bounding extent of the shape: outside
the rectangle bounds, strictly farther than the radius, or beyond the
bounding box of the polygon vertices. -/
def strictlyOutsideExtent (roi : ROI) (x y : ℚ) : Prop :=
  match roi with
  | .Rectangle cx cy w h =>
    x < cx - w / 2 ∨ cx + w / 2 < x ∨ y < cy - h / 2 ∨ cy + h / 2 < y
  | .Circle cx cy r => r * r < (x - cx) * (x - cx) + (y - cy) * (y - cy)
  | .Polygon _ _ vs =>
    (∀ v ∈ vs, v.1 < x) ∨ (∀ v ∈ vs, x < v.1) ∨
    (∀ v ∈ vs, v.2 < y) ∨ (∀ v ∈ vs, y < v.2)

/-- C9 (amended). `contains` is true at the shape's own center for
rectangles with positive width and height and for circles with positive
radius, and is false for every point strictly outside the bounding extent of
every ROI variant; the center-reflexivity clause does not extend to polygons
(see the counterexample with a non-convex polygon). -/
theorem roi_contains_center_and_rejects_outside :
    (∀ cx cy w h : ℚ, 0 < w → 0 < h →
      isPointInROI cx cy (ROI.Rectangle cx cy w h) = true) ∧
    (∀ cx cy r : ℚ, 0 < r → isPointInROI cx cy (ROI.Circle cx cy r) = true) ∧
    (∀ (roi : ROI) (x y : ℚ), strictlyOutsideExtent roi x y →
      isPointInROI x y roi = false) := by
  refine ⟨?_, ?_, ?_⟩
  · intro cx cy w h hw hh
    simp only [isPointInROI, isPointInRectangle]
    apply decide_eq_true
    refine ⟨by linarith, by linarith, by linarith, by linarith⟩
  · intro cx cy r hr
    simp only [isPointInROI, isPointInCircle]
    apply decide_eq_true
    refine ⟨le_of_lt hr, by nlinarith⟩
  · intro roi x y hout
    match roi with
    | .Rectangle cx cy w h =>
      simp only [isPointInROI, isPointInRectangle]
      apply decide_eq_false
      rintro ⟨ha, hb, hc, hd⟩
      rcases hout with h | h | h | h <;> linarith
    | .Circle cx cy r =>
      simp only [isPointInROI, isPointInCircle]
      simp only [strictlyOutsideExtent] at hout
      apply decide_eq_false
      rintro ⟨h0, hle⟩
      linarith
    | .Polygon cx cy vs =>
      simp only [isPointInROI]
      rw [isPointInPolygon_parity]
      apply decide_eq_false
      rcases hout with hx | hx | hy | hy
      · have hz : (polyEdges vs).countP (edgeTest x y) = 0 := by
          rw [List.countP_eq_zero]
          intro e he
          obtain ⟨hm1, hm2⟩ := polyEdges_mem he
          simp [edgeTest_false_right (hx e.1 hm1) (hx e.2 hm2)]
        omega
      · have hcongr : (polyEdges vs).countP (edgeTest x y) =
            (polyEdges vs).countP (edgeCrosses y) := by
          apply List.countP_congr
          intro e he
          obtain ⟨hm1, hm2⟩ := polyEdges_mem he
          rw [edgeTest_eq_crosses_left (hx e.1 hm1) (hx e.2 hm2)]
        have heven := countP_edgeCrosses_even vs y
        omega
      · have hz : (polyEdges vs).countP (edgeTest x y) = 0 := by
          rw [List.countP_eq_zero]
          intro e he
          obtain ⟨hm1, hm2⟩ := polyEdges_mem he
          have hcf : edgeCrosses y e = false := by
            unfold edgeCrosses
            rw [decide_eq_false (lt_asymm (hy e.1 hm1)),
              decide_eq_false (lt_asymm (hy e.2 hm2))]
            rfl
          simp [edgeTest_false_of_not_crossing hcf]
        omega
      · have hz : (polyEdges vs).countP (edgeTest x y) = 0 := by
          rw [List.countP_eq_zero]
          intro e he
          obtain ⟨hm1, hm2⟩ := polyEdges_mem he
          have hcf : edgeCrosses y e = false := by
            unfold edgeCrosses
            rw [decide_eq_true (hy e.1 hm1), decide_eq_true (hy e.2 hm2)]
            rfl
          simp [edgeTest_false_of_not_crossing hcf]
        omega

/-- C9 (counterexample). A non-convex polygon with at least 3 vertices whose
own center, the arithmetic mean of its vertices computed by `prepareROIs`, is
the point (11/4, 11/4), yet `contains` is false there: `contains` is not
reflexive at the center of every polygon. -/
theorem polygon_centroid_outside_counterexample :
    polygonCenter [((0:ℚ),(0:ℚ)), (10,0), (1,1), (0,10)] = (11/4, 11/4) ∧
    3 ≤ ([((0:ℚ),(0:ℚ)), (10,0), (1,1), (0,10)] : List (ℚ × ℚ)).length ∧
    isPointInROI (11/4) (11/4)
      (ROI.Polygon (11/4) (11/4) [((0:ℚ),(0:ℚ)), (10,0), (1,1), (0,10)]) = false := by
  refine ⟨?_, by norm_num, ?_⟩
  · norm_num [polygonCenter]
  · norm_num [isPointInROI, isPointInPolygon, polyEdges, edgeTest, edgeCrosses, List.rotate]

theorem roi_contains_center_and_rejects_outside_witness :
    ((0:ℚ) < 4 ∧ (0:ℚ) < 6 ∧ isPointInROI 1 2 (ROI.Rectangle 1 2 4 6) = true) ∧
    ((0:ℚ) < 3 ∧ isPointInROI 5 5 (ROI.Circle 5 5 3) = true) ∧
    (strictlyOutsideExtent (ROI.Circle 5 5 3) 9 5 ∧
      isPointInROI 9 5 (ROI.Circle 5 5 3) = false) ∧
    (strictlyOutsideExtent (ROI.Polygon 0 0 [((0:ℚ),(0:ℚ)), (4,0), (0,4)]) 10 1 ∧
      isPointInROI 10 1 (ROI.Polygon 0 0 [((0:ℚ),(0:ℚ)), (4,0), (0,4)]) = false) := by
  have hc : strictlyOutsideExtent (ROI.Circle 5 5 3) 9 5 := by
    simp only [strictlyOutsideExtent]
    norm_num
  have hp : strictlyOutsideExtent (ROI.Polygon 0 0 [((0:ℚ),(0:ℚ)), (4,0), (0,4)]) 10 1 := by
    simp only [strictlyOutsideExtent]
    left
    intro v hv
    fin_cases hv <;> norm_num
  refine ⟨⟨by norm_num, by norm_num,
      roi_contains_center_and_rejects_outside.1 1 2 4 6 (by norm_num) (by norm_num)⟩,
    ⟨by norm_num, roi_contains_center_and_rejects_outside.2.1 5 5 3 (by norm_num)⟩,
    ⟨hc, roi_contains_center_and_rejects_outside.2.2 (ROI.Circle 5 5 3) 9 5 hc⟩,
    ⟨hp, roi_contains_center_and_rejects_outside.2.2 _ 10 1 hp⟩⟩

/-- Witness for C6 on a run consisting of one trailing inside frame. -/
theorem rearing_trailing_run_dropped_witness :
    frameIsRearing .segmentation [] demoUpper (demoFrame 10) = true ∧
    ((runRearing .segmentation [] demoUpper ([] ++ [demoFrame 10])).detectedEvents =
        (runRearing .segmentation [] demoUpper []).detectedEvents ∧
      (runRearing .segmentation [] demoUpper ([] ++ [demoFrame 10])).currentRearingState
        = true ∧
      (runRearing .segmentation [] demoUpper ([] ++ [demoFrame 10])).rearingCount =
        (runRearing .segmentation [] demoUpper
          ([] ++ [demoFrame 10])).detectedEvents.length + 1) := by
  have h : frameIsRearing .segmentation [] demoUpper (demoFrame 10) = true := by
    norm_num [demoFrame, frameIsRearing, insideCircleROI, demoUpper]
  exact ⟨h, rearing_trailing_run_dropped .segmentation [] demoUpper [] (demoFrame 10) h⟩
